import Mathlib

/-!
Verification of the `agent-sessions` hybrid search and indexing core.

Python floats are modeled as exact rationals (`ℚ`); Python strings as `String`
(or `List Char` where character-level slicing matters); Python dicts (which
preserve insertion order) as ordered association lists `List (String × β)`.

Source files embedded:
  * `src/agent_sessions/index/search.py`   (`HybridSearch`)
  * `src/agent_sessions/index/chunker.py`  (`SessionChunker`)
  * `src/agent_sessions/index/embeddings.py` (`EmbeddingGenerator`)
  * `src/agent_sessions/index/indexer.py`  (`SessionIndexer._index_session`)
  * `src/agent_sessions/index/database.py` (`SessionDatabase`)
-/

namespace AgentSessions

/-! ## Python dict model

A Python `dict[str, β]` is an insertion-ordered association list with
duplicate-free keys.  `dlookup` is `d.get(k)`; `dictSet` is `d[k] = v`
(update in place if the key exists, else append at the end). -/

/-- `d.get(k)` for a Python dict modeled as an ordered association list. -/
def dlookup {β : Type} : List (String × β) → String → Option β
  | [], _ => none
  | p :: rest, k => if p.1 = k then some p.2 else dlookup rest k

/-- `d[k] = v` on a Python dict: replace the value in place if the key is
present (dicts cannot hold a key twice), otherwise append at the end. -/
def dictSet {β : Type} : List (String × β) → String → β → List (String × β)
  | [], k, v => [(k, v)]
  | p :: rest, k, v => if p.1 = k then (k, v) :: rest else p :: dictSet rest k v

theorem dlookup_dictSet {β : Type} (d : List (String × β)) (k k' : String) (v : β) :
    dlookup (dictSet d k v) k' = if k = k' then some v else dlookup d k' := by
  induction d with
  | nil => by_cases h : k = k' <;> simp [dictSet, dlookup, h]
  | cons p rest ih =>
    by_cases hp : p.1 = k
    · rw [dictSet, if_pos hp]
      by_cases h : k = k'
      · simp [dlookup, h]
      · have hp' : ¬ p.1 = k' := fun hk => h (hp ▸ hk)
        simp [dlookup, h, hp']
    · rw [dictSet, if_neg hp]
      by_cases h : p.1 = k'
      · have : ¬ k = k' := fun hk => hp (hk ▸ h)
        simp [dlookup, h, this]
      · simp [dlookup, h, ih]

/-! ## `HybridSearch._normalize_scores` (search.py:154-173) -/

/-- The normalization floor (search.py:172). -/
def FLOOR : ℚ := 0.5

/-- `HybridSearch._normalize_scores` (search.py:154-173): min-max normalize a
dict of scores into `[FLOOR, 1.0]`; all-equal inputs map to all `1.0`; the
empty dict maps to the empty dict. -/
def normalizeScores : List (String × ℚ) → List (String × ℚ)
  | [] => []
  | p :: rest =>
    let scores := p :: rest
    let values := scores.map Prod.snd
    let min_val := values.foldl min p.2
    let max_val := values.foldl max p.2
    if max_val = min_val then scores.map (fun q => (q.1, 1))
    else scores.map
      (fun q => (q.1, FLOOR + (1 - FLOOR) * (q.2 - min_val) / (max_val - min_val)))

theorem foldl_min_le_init (l : List ℚ) (a : ℚ) : l.foldl min a ≤ a := by
  induction l generalizing a with
  | nil => simp
  | cons x xs ih => exact le_trans (ih (min a x)) (min_le_left a x)

theorem foldl_min_le_mem {l : List ℚ} {x : ℚ} (hx : x ∈ l) (a : ℚ) :
    l.foldl min a ≤ x := by
  induction l generalizing a with
  | nil => cases hx
  | cons y ys ih =>
    rcases List.mem_cons.mp hx with h | h
    · subst h
      exact le_trans (foldl_min_le_init ys (min a x)) (min_le_right a x)
    · exact ih h (min a y)

theorem init_le_foldl_max (l : List ℚ) (a : ℚ) : a ≤ l.foldl max a := by
  induction l generalizing a with
  | nil => simp
  | cons x xs ih => exact le_trans (le_max_left a x) (ih (max a x))

theorem mem_le_foldl_max {l : List ℚ} {x : ℚ} (hx : x ∈ l) (a : ℚ) :
    x ≤ l.foldl max a := by
  induction l generalizing a with
  | nil => cases hx
  | cons y ys ih =>
    rcases List.mem_cons.mp hx with h | h
    · subst h
      exact le_trans (le_max_right a x) (init_le_foldl_max ys (max a x))
    · exact ih h (max a y)

theorem normalize_value_bounds {m M v : ℚ} (h1 : m ≤ v) (h2 : v ≤ M) (hlt : m < M) :
    FLOOR ≤ FLOOR + (1 - FLOOR) * (v - m) / (M - m) ∧
    FLOOR + (1 - FLOOR) * (v - m) / (M - m) ≤ 1 := by
  have hpos : 0 < M - m := sub_pos.mpr hlt
  have ht0 : 0 ≤ (v - m) / (M - m) := div_nonneg (by linarith) hpos.le
  have ht1 : (v - m) / (M - m) ≤ 1 := (div_le_one hpos).mpr (by linarith)
  have hF : FLOOR = 1 / 2 := by norm_num [FLOOR]
  rw [mul_div_assoc, hF]
  constructor <;> nlinarith [ht0, ht1]

theorem normalizeScores_cons_of_ne (p : String × ℚ) (rest : List (String × ℚ))
    (hne : ((p :: rest).map Prod.snd).foldl max p.2 ≠
           ((p :: rest).map Prod.snd).foldl min p.2) :
    normalizeScores (p :: rest) =
      (p :: rest).map (fun q => (q.1,
        FLOOR + (1 - FLOOR) * (q.2 - ((p :: rest).map Prod.snd).foldl min p.2) /
          (((p :: rest).map Prod.snd).foldl max p.2 -
            ((p :: rest).map Prod.snd).foldl min p.2))) := by
  rw [normalizeScores]
  simp only [if_neg hne]

theorem normalizeScores_cons_of_eq (p : String × ℚ) (rest : List (String × ℚ))
    (heq : ((p :: rest).map Prod.snd).foldl max p.2 =
           ((p :: rest).map Prod.snd).foldl min p.2) :
    normalizeScores (p :: rest) = (p :: rest).map (fun q => (q.1, (1 : ℚ))) := by
  rw [normalizeScores]
  simp only [if_pos heq]

/-- C2: `_normalize_scores` maps the empty dict to the empty dict; when the
maximum equals the minimum every entry maps to `1.0`; otherwise each value `v`
maps to `FLOOR + (1 − FLOOR)·(v − min)/(max − min)` with `FLOOR = 0.5`, so the
minimum maps to `0.5`, the maximum maps to `1.0`, and every output lies in
`[0.5, 1.0]` (search.py:154-173). -/
theorem C2_normalizeScores_spec (p : String × ℚ) (rest : List (String × ℚ)) (m M : ℚ)
    (hm : m = ((p :: rest).map Prod.snd).foldl min p.2)
    (hM : M = ((p :: rest).map Prod.snd).foldl max p.2) :
    normalizeScores ([] : List (String × ℚ)) = []
    ∧ (M = m → normalizeScores (p :: rest) = (p :: rest).map (fun q => (q.1, (1 : ℚ))))
    ∧ (M ≠ m →
        normalizeScores (p :: rest) =
          (p :: rest).map (fun q => (q.1, FLOOR + (1 - FLOOR) * (q.2 - m) / (M - m)))
        ∧ (∀ q ∈ p :: rest, q.2 = m → (q.1, FLOOR) ∈ normalizeScores (p :: rest))
        ∧ (∀ q ∈ p :: rest, q.2 = M → (q.1, (1 : ℚ)) ∈ normalizeScores (p :: rest))
        ∧ (∀ q ∈ normalizeScores (p :: rest), FLOOR ≤ q.2 ∧ q.2 ≤ 1)) := by
  subst hm hM
  refine ⟨rfl, normalizeScores_cons_of_eq p rest, fun hne => ?_⟩
  set m := ((p :: rest).map Prod.snd).foldl min p.2 with hm
  set M := ((p :: rest).map Prod.snd).foldl max p.2 with hM
  have hform := normalizeScores_cons_of_ne p rest hne
  have hmle : ∀ q ∈ p :: rest, m ≤ q.2 ∧ q.2 ≤ M := by
    intro q hq
    have hv : q.2 ∈ (p :: rest).map Prod.snd := List.mem_map_of_mem Prod.snd hq
    exact ⟨foldl_min_le_mem hv p.2, mem_le_foldl_max hv p.2⟩
  have hmM : m < M := by
    rcases hmle p (List.mem_cons_self p rest) with ⟨h1, h2⟩
    rcases lt_or_eq_of_le (le_trans h1 h2) with h | h
    · exact h
    · exact absurd h.symm hne
  have hMm : (M : ℚ) - m ≠ 0 := sub_ne_zero.mpr (ne_of_gt hmM)
  refine ⟨hform, ?_, ?_, ?_⟩
  · intro q hq hqm
    rw [hform]
    exact List.mem_map.mpr ⟨q, hq, by
      simp only [hqm, sub_self, mul_zero, zero_div, add_zero]⟩
  · intro q hq hqM
    rw [hform]
    refine List.mem_map.mpr ⟨q, hq, ?_⟩
    simp only [hqM, mul_div_assoc, div_self hMm, mul_one]
    norm_num [FLOOR]
  · intro q hq
    rw [hform] at hq
    rcases List.mem_map.mp hq with ⟨q₀, hq₀, hrfl⟩
    rcases hmle q₀ hq₀ with ⟨h1, h2⟩
    have := normalize_value_bounds h1 h2 hmM
    rw [← hrfl]
    exact this

theorem C2_normalizeScores_spec_witness :
    (("a", FLOOR) ∈ normalizeScores [("a", 0), ("b", 1)]) ∧
    (("b", (1 : ℚ)) ∈ normalizeScores [("a", 0), ("b", 1)]) := by
  have h := C2_normalizeScores_spec ("a", 0) [("b", 1)] 0 1 (by decide) (by decide)
  have h3 := h.2.2 (by norm_num)
  exact ⟨h3.2.1 ("a", 0) (by simp) rfl, h3.2.2.1 ("b", 1) (by simp) rfl⟩

/-! ## `HybridSearch._search_fts` (search.py:72-85) -/

theorem dlookup_eq_none_iff {β : Type} (l : List (String × β)) (sid : String) :
    dlookup l sid = none ↔ sid ∉ l.map Prod.fst := by
  induction l with
  | nil => simp [dlookup]
  | cons p rest ih =>
    rw [dlookup, List.map_cons]
    by_cases h : p.1 = sid
    · simp [h]
    · rw [if_neg h, List.mem_cons, ih]
      constructor
      · intro hn hc
        rcases hc with hc | hc
        · exact h hc.symm
        · exact hn hc
      · intro hn hc
        exact hn (Or.inr hc)

theorem dlookup_foldl_not_mem {α β : Type}
    {step : List (String × β) → α → List (String × β)} {k : α → String}
    (hstep : ∀ d a sid, k a ≠ sid → dlookup (step d a) sid = dlookup d sid)
    (l : List α) (d : List (String × β)) (sid : String) (h : sid ∉ l.map k) :
    dlookup (l.foldl step d) sid = dlookup d sid := by
  induction l generalizing d with
  | nil => rfl
  | cons a rest ih =>
    have ha : k a ≠ sid := by
      intro he
      exact h (by simp [he])
    have hrest : sid ∉ rest.map k := by
      intro hm
      exact h (by simp [hm])
    rw [List.foldl_cons, ih _ hrest, hstep d a sid ha]

/-- Second loop body of `_search_fts` (search.py:79-83): upsert with `max`. -/
def ftsPhase2Step (d : List (String × ℚ)) (q : String × ℚ) : List (String × ℚ) :=
  match dlookup d q.1 with
  | some old => dictSet d q.1 (max old (-q.2))
  | none => dictSet d q.1 (-q.2)

theorem ftsPhase2Step_not_mem (d : List (String × ℚ)) (q : String × ℚ) (sid : String)
    (h : q.1 ≠ sid) : dlookup (ftsPhase2Step d q) sid = dlookup d sid := by
  cases hl : dlookup d q.1 <;> simp [ftsPhase2Step, hl, dlookup_dictSet, h]

/-- Raw (pre-normalization) lexical scores of `_search_fts` (search.py:76-83):
first loop writes `-bm25` per message-index hit, second loop takes the `max`
with `-bm25` per session-metadata hit. -/
def searchFtsScores (msg_results sess_results : List (String × ℚ)) : List (String × ℚ) :=
  let scores := msg_results.foldl (fun d q => dictSet d q.1 (-q.2)) []
  sess_results.foldl ftsPhase2Step scores

/-- `HybridSearch._search_fts` (search.py:72-85). -/
def searchFts (msg_results sess_results : List (String × ℚ)) : List (String × ℚ) :=
  normalizeScores (searchFtsScores msg_results sess_results)

theorem dlookup_ftsPhase1 (msg : List (String × ℚ)) (d : List (String × ℚ))
    (sid : String) (a : ℚ) (hnd : (msg.map Prod.fst).Nodup)
    (h : dlookup msg sid = some a) :
    dlookup (msg.foldl (fun d q => dictSet d q.1 (-q.2)) d) sid = some (-a) := by
  induction msg generalizing d with
  | nil => simp [dlookup] at h
  | cons q rest ih =>
    rw [List.map_cons, List.nodup_cons] at hnd
    by_cases hq : q.1 = sid
    · rw [dlookup, if_pos hq] at h
      injection h with h
      subst h
      have hrest : sid ∉ rest.map Prod.fst := hq ▸ hnd.1
      rw [List.foldl_cons,
        dlookup_foldl_not_mem (k := Prod.fst)
          (fun d a sid h => by rw [dlookup_dictSet, if_neg h]) rest _ sid hrest,
        dlookup_dictSet, if_pos hq]
    · rw [dlookup, if_neg hq] at h
      rw [List.foldl_cons]
      exact ih _ hnd.2 h

theorem dlookup_ftsPhase2 (sess : List (String × ℚ)) (d : List (String × ℚ))
    (sid : String) (b : ℚ) (hnd : (sess.map Prod.fst).Nodup)
    (h : dlookup sess sid = some b) :
    dlookup (sess.foldl ftsPhase2Step d) sid =
      some (match dlookup d sid with
            | some old => max old (-b)
            | none => -b) := by
  induction sess generalizing d with
  | nil => simp [dlookup] at h
  | cons q rest ih =>
    rw [List.map_cons, List.nodup_cons] at hnd
    by_cases hq : q.1 = sid
    · rw [dlookup, if_pos hq] at h
      injection h with h
      subst h
      have hrest : sid ∉ rest.map Prod.fst := hq ▸ hnd.1
      rw [List.foldl_cons,
        dlookup_foldl_not_mem (k := Prod.fst) ftsPhase2Step_not_mem rest _ sid hrest]
      cases hl : dlookup d q.1 <;>
        rw [ftsPhase2Step] <;>
        simp only [hl, hq ▸ hl, dlookup_dictSet, if_pos hq]
    · rw [dlookup, if_neg hq] at h
      rw [List.foldl_cons, ih _ hnd.2 h, ftsPhase2Step_not_mem d q sid hq]

/-- C4: `_search_fts` gives each session appearing in either full-text index the
raw score `-(min of its BM25 scores across the two indices)` (a session in one
index gets the negation of its single BM25 score) and then normalizes the raw
scores (search.py:72-85). -/
theorem C4_searchFts_spec (msg sess : List (String × ℚ))
    (hmsg : (msg.map Prod.fst).Nodup) (hsess : (sess.map Prod.fst).Nodup) :
    searchFts msg sess = normalizeScores (searchFtsScores msg sess)
    ∧ ∀ sid : String,
      (∀ a b : ℚ, dlookup msg sid = some a → dlookup sess sid = some b →
        dlookup (searchFtsScores msg sess) sid = some (-(min a b)))
      ∧ (∀ a : ℚ, dlookup msg sid = some a → dlookup sess sid = none →
        dlookup (searchFtsScores msg sess) sid = some (-a))
      ∧ (∀ b : ℚ, dlookup msg sid = none → dlookup sess sid = some b →
        dlookup (searchFtsScores msg sess) sid = some (-b))
      ∧ (dlookup msg sid = none → dlookup sess sid = none →
        dlookup (searchFtsScores msg sess) sid = none) := by
  refine ⟨rfl, fun sid => ?_⟩
  refine ⟨fun a b ha hb => ?_, fun a ha hb => ?_, fun b ha hb => ?_, fun ha hb => ?_⟩
  · rw [searchFtsScores, dlookup_ftsPhase2 sess _ sid b hsess hb,
      dlookup_ftsPhase1 msg _ sid a hmsg ha]
    simp only [max_neg_neg]
  · have hb' : sid ∉ sess.map Prod.fst := (dlookup_eq_none_iff sess sid).mp hb
    rw [searchFtsScores,
      dlookup_foldl_not_mem (k := Prod.fst) ftsPhase2Step_not_mem sess _ sid hb',
      dlookup_ftsPhase1 msg _ sid a hmsg ha]
  · have ha' : sid ∉ msg.map Prod.fst := (dlookup_eq_none_iff msg sid).mp ha
    rw [searchFtsScores, dlookup_ftsPhase2 sess _ sid b hsess hb,
      dlookup_foldl_not_mem (k := Prod.fst)
        (fun d a sid h => by rw [dlookup_dictSet, if_neg h]) msg _ sid ha']
    rfl
  · have ha' : sid ∉ msg.map Prod.fst := (dlookup_eq_none_iff msg sid).mp ha
    have hb' : sid ∉ sess.map Prod.fst := (dlookup_eq_none_iff sess sid).mp hb
    rw [searchFtsScores,
      dlookup_foldl_not_mem (k := Prod.fst) ftsPhase2Step_not_mem sess _ sid hb',
      dlookup_foldl_not_mem (k := Prod.fst)
        (fun d a sid h => by rw [dlookup_dictSet, if_neg h]) msg _ sid ha']
    rfl

theorem C4_searchFts_spec_witness :
    dlookup (searchFtsScores [("x", 3), ("y", 5)] [("y", 2), ("z", 7)]) "y" =
      some (-(min 5 2)) := by
  exact ((C4_searchFts_spec [("x", 3), ("y", 5)] [("y", 2), ("z", 7)]
    (by decide) (by decide)).2 "y").1 5 2 (by decide) (by decide)

/-! ## `HybridSearch._combine_scores` (search.py:120-152) and the ranking
steps of `HybridSearch.search` (search.py:47-50) -/

/-- `SearchResult` dataclass (search.py:11-16). -/
structure SearchResult where
  session_id : String
  score : ℚ
  fts_score : Option ℚ := none
  semantic_score : Option ℚ := none
deriving DecidableEq

/-- `_combine_scores` (search.py:120-152): sessions in both maps get
`fts_weight·fts + semantic_weight·sem`; sessions in exactly one map get half
of their single score.  Python iterates over the set union of the key sets
(unspecified order); the model uses the lexical keys followed by the
semantic-only keys — the callers sort by score afterwards. -/
def combineScores (fts_scores semantic_scores : List (String × ℚ))
    (fts_weight semantic_weight : ℚ) : List SearchResult :=
  let all_session_ids :=
    fts_scores.map Prod.fst ++
      (semantic_scores.map Prod.fst).filter (fun k => (dlookup fts_scores k).isNone)
  all_session_ids.filterMap (fun sid =>
    match dlookup fts_scores sid, dlookup semantic_scores sid with
    | some f, some s =>
      some { session_id := sid
             score := fts_weight * f + semantic_weight * s
             fts_score := some f
             semantic_score := some s }
    | some f, none => some { session_id := sid, score := f * 0.5, fts_score := some f }
    | none, some s => some { session_id := sid, score := s * 0.5, semantic_score := some s }
    | none, none => none)

/-- The descending-by-combined-score order used by `search` (search.py:49). -/
def scoreDesc (a b : SearchResult) : Prop := b.score ≤ a.score

instance : DecidableRel scoreDesc :=
  fun a b => inferInstanceAs (Decidable (b.score ≤ a.score))

instance : IsTotal SearchResult scoreDesc := ⟨fun a b => le_total b.score a.score⟩

instance : IsTrans SearchResult scoreDesc := ⟨fun _ _ _ hab hbc => le_trans hbc hab⟩

/-- `combined.sort(key=lambda r: r.score, reverse=True)` (search.py:49). -/
def sortResultsDesc (l : List SearchResult) : List SearchResult :=
  l.insertionSort scoreDesc

/-- Lines 47-50 of `HybridSearch.search`: combine, drop scores `< 0.2`, sort
descending, truncate to `limit`. -/
def searchRank (fts semantic : List (String × ℚ)) (fts_w sem_w : ℚ)
    (limit : ℕ) : List SearchResult :=
  let combined := combineScores fts semantic fts_w sem_w
  let filtered := combined.filter (fun r => decide ((0.2 : ℚ) ≤ r.score))
  (sortResultsDesc filtered).take limit

theorem combineScores_mem {fts sem : List (String × ℚ)} {fw sw : ℚ}
    {r : SearchResult} (h : r ∈ combineScores fts sem fw sw) :
    r.fts_score = dlookup fts r.session_id
    ∧ r.semantic_score = dlookup sem r.session_id
    ∧ (match dlookup fts r.session_id, dlookup sem r.session_id with
       | some f, some s => r.score = fw * f + sw * s
       | some f, none => r.score = f * 0.5
       | none, some s => r.score = s * 0.5
       | none, none => False) := by
  rw [combineScores] at h
  rcases List.mem_filterMap.mp h with ⟨sid, _, hmk⟩
  cases hf : dlookup fts sid <;> cases hs : dlookup sem sid <;>
    rw [hf, hs] at hmk
  · exact absurd hmk (by simp)
  all_goals
    injection hmk with hmk
    subst hmk
    simp [hf, hs]

/-- C3: given normalized lexical and semantic maps, the fused results score
sessions in both maps by `lex_w·lex + sem_w·sem`, sessions in one map by half
their single score, drop scores below `0.2`, and return the survivors sorted
by combined score descending, truncated to `limit`
(search.py:120-152 and search.py:47-50). -/
theorem C3_searchRank_spec (fts sem : List (String × ℚ)) (fw sw : ℚ) (limit : ℕ) :
    (∀ r ∈ searchRank fts sem fw sw limit,
      (0.2 : ℚ) ≤ r.score
      ∧ r.fts_score = dlookup fts r.session_id
      ∧ r.semantic_score = dlookup sem r.session_id
      ∧ (match dlookup fts r.session_id, dlookup sem r.session_id with
         | some f, some s => r.score = fw * f + sw * s
         | some f, none => r.score = f * 0.5
         | none, some s => r.score = s * 0.5
         | none, none => False))
    ∧ (searchRank fts sem fw sw limit).Sorted scoreDesc
    ∧ (searchRank fts sem fw sw limit).length ≤ limit
    ∧ ∃ l : List SearchResult,
        l.Perm ((combineScores fts sem fw sw).filter
          (fun r => decide ((0.2 : ℚ) ≤ r.score)))
        ∧ l.Sorted scoreDesc
        ∧ searchRank fts sem fw sw limit = l.take limit := by
  refine ⟨?_, ?_, ?_, ?_⟩
  · intro r hr
    have hr' : r ∈ sortResultsDesc ((combineScores fts sem fw sw).filter
        (fun r => decide ((0.2 : ℚ) ≤ r.score))) := List.mem_of_mem_take hr
    rw [sortResultsDesc, List.mem_insertionSort] at hr'
    have hmem := List.mem_filter.mp hr'
    exact ⟨of_decide_eq_true hmem.2, combineScores_mem hmem.1⟩
  · exact List.Pairwise.sublist (List.take_sublist limit _)
      (List.sorted_insertionSort scoreDesc _)
  · exact List.length_take_le limit _
  · exact ⟨sortResultsDesc ((combineScores fts sem fw sw).filter
        (fun r => decide ((0.2 : ℚ) ≤ r.score))),
      List.perm_insertionSort scoreDesc _,
      List.sorted_insertionSort scoreDesc _, rfl⟩

theorem C3_searchRank_spec_witness :
    (0.2 : ℚ) ≤ (SearchResult.mk "b" 0.5 none (some 1)).score
    ∧ (SearchResult.mk "b" 0.5 none (some 1)).score = 1 * 0.5 := by
  have h := (C3_searchRank_spec [("a", 1)] [("a", 1), ("b", 1)] 0.3 0.7 10).1
    (SearchResult.mk "b" 0.5 none (some 1)) (by
      norm_num [searchRank, combineScores, sortResultsDesc, dlookup,
        List.insertionSort, List.orderedInsert, scoreDesc, List.filterMap_cons,
        (by decide : ¬("a" : String) = "b")])
  exact ⟨h.1, h.2.2.2⟩

/-! ## `HybridSearch._search_semantic` (search.py:87-118) -/

/-- Minimum cosine-similarity threshold (search.py:98). -/
def MIN_COSINE : ℚ := 0.35

/-- Python `max` of a nonempty list given as head and tail. -/
def pyMax (a : ℚ) (l : List ℚ) : ℚ := l.foldl max a

/-- The `session_scores` defaultdict loop of `_search_semantic`
(search.py:100-104): per-chunk similarities grouped by session in
first-appearance order. -/
def groupSessionScores (sim : List ℚ → List ℚ → ℚ) (query_embedding : List ℚ)
    (chunk_embeddings : List (String × ℕ × List ℚ)) : List (String × List ℚ) :=
  chunk_embeddings.foldl (fun d c =>
    let s := sim query_embedding c.2.2
    match dlookup d c.1 with
    | some l => dictSet d c.1 (l ++ [s])
    | none => dictSet d c.1 [s]) []

/-- The aggregation loop of `_search_semantic` (search.py:106-110): best
similarity per session, kept only when at least `MIN_COSINE`. -/
def aggregateScores (groups : List (String × List ℚ)) : List (String × ℚ) :=
  groups.filterMap (fun g =>
    match g.2 with
    | [] => none
    | s :: rest =>
      let best := pyMax s rest
      if MIN_COSINE ≤ best then some (g.1, best) else none)

/-- The descending-by-similarity order of `sorted(..., reverse=True)`
(search.py:115). -/
def pairDesc (a b : String × ℚ) : Prop := b.2 ≤ a.2

instance : DecidableRel pairDesc :=
  fun a b => inferInstanceAs (Decidable (b.2 ≤ a.2))

instance : IsTotal (String × ℚ) pairDesc := ⟨fun a b => le_total b.2 a.2⟩

instance : IsTrans (String × ℚ) pairDesc := ⟨fun _ _ _ hab hbc => le_trans hbc hab⟩

/-- `sorted(aggregated.items(), key=lambda x: x[1], reverse=True)`
(search.py:115). -/
def sortPairsDesc (l : List (String × ℚ)) : List (String × ℚ) :=
  l.insertionSort pairDesc

/-- `HybridSearch._search_semantic` (search.py:87-118).  The cosine
similarity is a parameter (`_cosine_similarity` computes with `math.sqrt`
over floats; every property claimed of this pass holds for an arbitrary
similarity function), and the chunk-embedding rows arrive deserialized. -/
def searchSemantic (sim : List ℚ → List ℚ → ℚ) (query_embedding : Option (List ℚ))
    (chunk_embeddings : List (String × ℕ × List ℚ)) (limit : ℕ) :
    List (String × ℚ) :=
  match query_embedding with
  | none => []
  | some q =>
    if chunk_embeddings.isEmpty then []
    else
      let aggregated := aggregateScores (groupSessionScores sim q chunk_embeddings)
      if aggregated.isEmpty then []
      else normalizeScores ((sortPairsDesc aggregated).take limit)

/-- The similarities of a session's chunks, in chunk order. -/
def simsOf (sim : List ℚ → List ℚ → ℚ) (q : List ℚ)
    (chunk_embeddings : List (String × ℕ × List ℚ)) (sid : String) : List ℚ :=
  (chunk_embeddings.filter (fun c => decide (c.1 = sid))).map (fun c => sim q c.2.2)

theorem dlookup_groupFold (sim : List ℚ → List ℚ → ℚ) (q : List ℚ)
    (chunks : List (String × ℕ × List ℚ)) (d : List (String × List ℚ)) (sid : String) :
    dlookup (chunks.foldl (fun d c =>
        let s := sim q c.2.2
        match dlookup d c.1 with
        | some l => dictSet d c.1 (l ++ [s])
        | none => dictSet d c.1 [s]) d) sid =
      match dlookup d sid with
      | some l => some (l ++ simsOf sim q chunks sid)
      | none => if simsOf sim q chunks sid = [] then none
                else some (simsOf sim q chunks sid) := by
  induction chunks generalizing d with
  | nil =>
    cases hd : dlookup d sid <;> simp [simsOf, hd]
  | cons c rest ih =>
    rw [List.foldl_cons]
    by_cases hc : c.1 = sid
    · have hfil : simsOf sim q (c :: rest) sid =
          sim q c.2.2 :: simsOf sim q rest sid := by
        simp [simsOf, List.filter_cons, hc]
      cases hd : dlookup d sid
      · rw [hfil]
        have hstep : (match dlookup d c.1 with
            | some l => dictSet d c.1 (l ++ [sim q c.2.2])
            | none => dictSet d c.1 [sim q c.2.2]) = dictSet d c.1 [sim q c.2.2] := by
          rw [hc, hd]
        simp only [hstep, ih]
        rw [dlookup_dictSet, if_pos hc]
        cases hrest : simsOf sim q rest sid <;> simp [hrest]
      · rename_i l
        rw [hfil]
        have hstep : (match dlookup d c.1 with
            | some l2 => dictSet d c.1 (l2 ++ [sim q c.2.2])
            | none => dictSet d c.1 [sim q c.2.2]) =
            dictSet d c.1 (l ++ [sim q c.2.2]) := by
          rw [hc, hd]
        simp only [hstep, ih]
        rw [dlookup_dictSet, if_pos hc]
        simp
    · have hfil : simsOf sim q (c :: rest) sid = simsOf sim q rest sid := by
        simp [simsOf, List.filter_cons, hc]
      have hpres : dlookup (match dlookup d c.1 with
          | some l => dictSet d c.1 (l ++ [sim q c.2.2])
          | none => dictSet d c.1 [sim q c.2.2]) sid = dlookup d sid := by
        cases hl : dlookup d c.1 <;> simp [dlookup_dictSet, hc]
      simp only [ih, hpres, hfil]

/-- C5 helper: the per-session similarity lists produced by the grouping
loop are exactly the session's chunk similarities in chunk order. -/
theorem dlookup_groupSessionScores (sim : List ℚ → List ℚ → ℚ) (q : List ℚ)
    (chunks : List (String × ℕ × List ℚ)) (sid : String) :
    dlookup (groupSessionScores sim q chunks) sid =
      (if simsOf sim q chunks sid = [] then none
       else some (simsOf sim q chunks sid)) := by
  rw [groupSessionScores, dlookup_groupFold]
  rfl

theorem dictSet_map_fst_of_some {β : Type} (d : List (String × β)) (k : String)
    (v : β) (h : (dlookup d k).isSome) :
    (dictSet d k v).map Prod.fst = d.map Prod.fst := by
  induction d with
  | nil => simp [dlookup] at h
  | cons p rest ih =>
    by_cases hp : p.1 = k
    · rw [dictSet, if_pos hp]
      simp [hp.symm]
    · rw [dlookup, if_neg hp] at h
      rw [dictSet, if_neg hp, List.map_cons, List.map_cons, ih h]

theorem dictSet_map_fst_of_none {β : Type} (d : List (String × β)) (k : String)
    (v : β) (h : dlookup d k = none) :
    (dictSet d k v).map Prod.fst = d.map Prod.fst ++ [k] := by
  induction d with
  | nil => rfl
  | cons p rest ih =>
    rw [dlookup] at h
    by_cases hp : p.1 = k
    · rw [if_pos hp] at h
      cases h
    · rw [if_neg hp] at h
      rw [dictSet, if_neg hp, List.map_cons, List.map_cons, ih h, List.cons_append]

theorem nodup_keys_dictSet {β : Type} (d : List (String × β)) (k : String) (v : β)
    (hnd : (d.map Prod.fst).Nodup) : ((dictSet d k v).map Prod.fst).Nodup := by
  cases hs : dlookup d k
  · rw [dictSet_map_fst_of_none d k v hs]
    have hk : k ∉ d.map Prod.fst := (dlookup_eq_none_iff d k).mp hs
    simp [List.nodup_append, hnd, hk]
  · rw [dictSet_map_fst_of_some d k v (by rw [hs]; rfl)]
    exact hnd

theorem groupSessionScores_keys_nodup (sim : List ℚ → List ℚ → ℚ) (q : List ℚ)
    (chunks : List (String × ℕ × List ℚ)) :
    ((groupSessionScores sim q chunks).map Prod.fst).Nodup := by
  rw [groupSessionScores]
  have h : ∀ d : List (String × List ℚ), (d.map Prod.fst).Nodup →
      ((chunks.foldl (fun d c =>
        let s := sim q c.2.2
        match dlookup d c.1 with
        | some l => dictSet d c.1 (l ++ [s])
        | none => dictSet d c.1 [s]) d).map Prod.fst).Nodup := by
    induction chunks with
    | nil => exact fun d hd => hd
    | cons c rest ih =>
      intro d hd
      rw [List.foldl_cons]
      apply ih
      cases hl : dlookup d c.1 <;> simp only [hl] <;>
        exact nodup_keys_dictSet _ _ _ hd
  exact h [] (by simp)

theorem dlookup_aggregate_none_of_not_mem (groups : List (String × List ℚ))
    (sid : String) (h : sid ∉ groups.map Prod.fst) :
    dlookup (aggregateScores groups) sid = none := by
  rw [dlookup_eq_none_iff]
  intro hmem
  rcases List.mem_map.mp hmem with ⟨p, hp, hfst⟩
  rcases List.mem_filterMap.mp hp with ⟨g, hg, hfg⟩
  have hkey : p.1 = g.1 := by
    revert hfg
    cases g.2 with
    | nil => simp
    | cons s rest =>
      by_cases hb : MIN_COSINE ≤ pyMax s rest <;> simp [hb]
      intro he
      rw [← he]
  exact h (hfst ▸ hkey ▸ List.mem_map_of_mem Prod.fst hg)

theorem dlookup_aggregateScores (groups : List (String × List ℚ))
    (hnd : (groups.map Prod.fst).Nodup) (sid : String) :
    dlookup (aggregateScores groups) sid =
      match dlookup groups sid with
      | none => none
      | some [] => none
      | some (s :: rest) =>
          if MIN_COSINE ≤ pyMax s rest then some (pyMax s rest) else none := by
  induction groups with
  | nil => rfl
  | cons g rest ih =>
    rw [List.map_cons, List.nodup_cons] at hnd
    rw [aggregateScores, List.filterMap_cons]
    by_cases hg1 : g.1 = sid
    · have hnotin : sid ∉ rest.map Prod.fst := hg1 ▸ hnd.1
      have hrest : dlookup (aggregateScores rest) sid = none :=
        dlookup_aggregate_none_of_not_mem rest sid hnotin
      cases hg2 : g.2 with
      | nil =>
        simp only [aggregateScores] at hrest
        simp only [hrest, dlookup, if_pos hg1, hg2]
      | cons s tl =>
        by_cases hb : MIN_COSINE ≤ pyMax s tl
        · simp only [if_pos hb, dlookup, if_pos hg1, hg2]
        · simp only [if_neg hb, aggregateScores] at *
          simp only [hrest, dlookup, if_pos hg1, hg2, if_neg hb]
    · have htail : dlookup (g :: rest) sid = dlookup rest sid := by
        rw [dlookup, if_neg hg1]
      cases hg2 : g.2 with
      | nil => rw [htail, ← ih hnd.2, aggregateScores]
      | cons s tl =>
        by_cases hb : MIN_COSINE ≤ pyMax s tl
        · simp only [if_pos hb]
          rw [htail, ← ih hnd.2, aggregateScores, dlookup, if_neg hg1]
        · simp only [if_neg hb]
          rw [htail, ← ih hnd.2, aggregateScores]

theorem normalizeScores_mem_bounds (l : List (String × ℚ)) :
    ∀ p ∈ normalizeScores l, FLOOR ≤ p.2 ∧ p.2 ≤ 1 := by
  cases l with
  | nil =>
    intro p hp
    simp [normalizeScores] at hp
  | cons p0 rest =>
    intro p hp
    by_cases heq : ((p0 :: rest).map Prod.snd).foldl max p0.2 =
        ((p0 :: rest).map Prod.snd).foldl min p0.2
    · rw [normalizeScores_cons_of_eq p0 rest heq] at hp
      rcases List.mem_map.mp hp with ⟨q₀, _, hrfl⟩
      rw [← hrfl]
      refine ⟨?_, le_refl 1⟩
      norm_num [FLOOR]
    · rw [normalizeScores_cons_of_ne p0 rest heq] at hp
      rcases List.mem_map.mp hp with ⟨q₀, hq₀, hrfl⟩
      have hv : q₀.2 ∈ (p0 :: rest).map Prod.snd := List.mem_map_of_mem Prod.snd hq₀
      have h1 : ((p0 :: rest).map Prod.snd).foldl min p0.2 ≤ q₀.2 :=
        foldl_min_le_mem hv p0.2
      have h2 : q₀.2 ≤ ((p0 :: rest).map Prod.snd).foldl max p0.2 :=
        mem_le_foldl_max hv p0.2
      have hp0 : (p0 : String × ℚ).2 ∈ (p0 :: rest).map Prod.snd :=
        List.mem_map_of_mem Prod.snd (List.mem_cons_self p0 rest)
      have hmM : ((p0 :: rest).map Prod.snd).foldl min p0.2 <
          ((p0 :: rest).map Prod.snd).foldl max p0.2 := by
        rcases lt_or_eq_of_le (le_trans (foldl_min_le_mem hp0 p0.2)
          (mem_le_foldl_max hp0 p0.2)) with h | h
        · exact h
        · exact absurd h.symm heq
      rw [← hrfl]
      exact normalize_value_bounds h1 h2 hmM

theorem normalizeScores_length (l : List (String × ℚ)) :
    (normalizeScores l).length = l.length := by
  cases l with
  | nil => rfl
  | cons p rest =>
    by_cases heq : ((p :: rest).map Prod.snd).foldl max p.2 =
        ((p :: rest).map Prod.snd).foldl min p.2
    · rw [normalizeScores_cons_of_eq p rest heq, List.length_map]
    · rw [normalizeScores_cons_of_ne p rest heq, List.length_map]

theorem le_pyMax {x s : ℚ} {rest : List ℚ} (h : x ∈ s :: rest) : x ≤ pyMax s rest := by
  rcases List.mem_cons.mp h with h | h
  · exact h ▸ init_le_foldl_max rest s
  · exact mem_le_foldl_max h s

/-- C5: with a non-null query embedding, the semantic pass scores each session
by the maximum similarity over its chunks, excludes sessions whose best
similarity is below `0.35`, keeps at most `2 × limit` sessions — each kept
session's best similarity dominating every dropped session's — and min-max
normalizes the kept scores into `[0.5, 1.0]` (search.py:87-118, called from
`search` with `limit = 2 × requested`, search.py:45). -/
theorem C5_searchSemantic_spec (sim : List ℚ → List ℚ → ℚ) (q : List ℚ)
    (chunks : List (String × ℕ × List ℚ)) (limit : ℕ) :
    (∀ sid, dlookup (groupSessionScores sim q chunks) sid =
      (if simsOf sim q chunks sid = [] then none
       else some (simsOf sim q chunks sid)))
    ∧ (∀ sid best,
        dlookup (aggregateScores (groupSessionScores sim q chunks)) sid = some best →
          MIN_COSINE ≤ best
          ∧ ∃ s rest, dlookup (groupSessionScores sim q chunks) sid = some (s :: rest)
              ∧ best = pyMax s rest ∧ ∀ x ∈ s :: rest, x ≤ best)
    ∧ (∀ sid (s : ℚ) (rest : List ℚ),
        dlookup (groupSessionScores sim q chunks) sid = some (s :: rest) →
        pyMax s rest < MIN_COSINE →
          dlookup (aggregateScores (groupSessionScores sim q chunks)) sid = none)
    ∧ (searchSemantic sim (some q) chunks (2 * limit)).length ≤ 2 * limit
    ∧ (∀ p ∈ searchSemantic sim (some q) chunks (2 * limit), FLOOR ≤ p.2 ∧ p.2 ≤ 1)
    ∧ (chunks ≠ [] → aggregateScores (groupSessionScores sim q chunks) ≠ [] →
        searchSemantic sim (some q) chunks (2 * limit) =
          normalizeScores ((sortPairsDesc
            (aggregateScores (groupSessionScores sim q chunks))).take (2 * limit)))
    ∧ (∀ p ∈ (sortPairsDesc
          (aggregateScores (groupSessionScores sim q chunks))).take (2 * limit),
        ∀ g ∈ aggregateScores (groupSessionScores sim q chunks),
          g.1 ∉ ((sortPairsDesc
            (aggregateScores (groupSessionScores sim q chunks))).take (2 * limit)).map
              Prod.fst →
          g.2 ≤ p.2) := by
  have hnd := groupSessionScores_keys_nodup sim q chunks
  have hagg := dlookup_aggregateScores (groupSessionScores sim q chunks) hnd
  refine ⟨dlookup_groupSessionScores sim q chunks, ?_, ?_, ?_, ?_, ?_, ?_⟩
  · intro sid best hsome
    rw [hagg sid] at hsome
    cases hg : dlookup (groupSessionScores sim q chunks) sid with
    | none => rw [hg] at hsome; cases hsome
    | some l =>
      cases l with
      | nil => rw [hg] at hsome; cases hsome
      | cons s rest =>
        rw [hg] at hsome
        by_cases hb : MIN_COSINE ≤ pyMax s rest
        · simp only [if_pos hb] at hsome
          injection hsome with hsome
          subst hsome
          exact ⟨hb, s, rest, rfl, rfl, fun x hx => le_pyMax hx⟩
        · simp only [if_neg hb] at hsome
          cases hsome
  · intro sid s rest hg hb
    rw [hagg sid, hg]
    simp only [if_neg (not_le.mpr hb)]
  · rw [searchSemantic]
    by_cases h1 : chunks.isEmpty
    · simp [h1]
    · rw [if_neg (by simp [h1])]
      by_cases h2 : (aggregateScores (groupSessionScores sim q chunks)).isEmpty
      · simp [h2]
      · rw [if_neg (by simp [h2]), normalizeScores_length]
        exact List.length_take_le _ _
  · intro p hp
    rw [searchSemantic] at hp
    by_cases h1 : chunks.isEmpty
    · simp [h1] at hp
    · rw [if_neg (by simp [h1])] at hp
      by_cases h2 : (aggregateScores (groupSessionScores sim q chunks)).isEmpty
      · simp [h2] at hp
      · rw [if_neg (by simp [h2])] at hp
        exact normalizeScores_mem_bounds _ p hp
  · intro h1 h2
    rw [searchSemantic, if_neg (by simp [h1]), if_neg (by simp [h2])]
  · intro p hp g hg hnot
    have hsorted : (sortPairsDesc
        (aggregateScores (groupSessionScores sim q chunks))).Sorted pairDesc :=
      List.sorted_insertionSort pairDesc _
    set sorted := sortPairsDesc (aggregateScores (groupSessionScores sim q chunks))
      with hsorted_def
    have hsplit : sorted.take (2 * limit) ++ sorted.drop (2 * limit) = sorted :=
      List.take_append_drop _ _
    have hpw := List.pairwise_append.mp (hsplit ▸ hsorted)
    have hgsorted : g ∈ sorted := by
      rw [hsorted_def, sortPairsDesc, List.mem_insertionSort]
      exact hg
    rcases List.mem_append.mp (hsplit ▸ hgsorted) with hgin | hgin
    · exact absurd (List.mem_map_of_mem Prod.fst hgin) hnot
    · exact hpw.2.2 p hp g hgin

theorem C5_searchSemantic_spec_witness :
    MIN_COSINE ≤ 1
    ∧ ∃ s rest,
        dlookup (groupSessionScores (fun _ v => v.headD 0) [1] [("s1", 0, [1])]) "s1" =
          some (s :: rest)
        ∧ (1 : ℚ) = pyMax s rest ∧ ∀ x ∈ s :: rest, x ≤ 1 := by
  exact (C5_searchSemantic_spec (fun _ v => v.headD 0) [1] [("s1", 0, [1])] 1).2.1
    "s1" 1 (by
      norm_num [aggregateScores, groupSessionScores, dictSet, dlookup, pyMax,
        MIN_COSINE, List.filterMap_cons, List.foldl])

/-! ## `EmbeddingGenerator` availability (embeddings.py) and the full
`HybridSearch.search` pipeline (search.py:33-56) -/

/-- `MAX_CHARS` truncation bound of `embed_texts` (embeddings.py:69). -/
def MAX_CHARS : ℕ := 28000

/-- `EmbeddingGenerator.embed_texts` (embeddings.py:63-86).  `available`
models `self._available` (set only when the openai package, the API key and
the client all exist, `_initialize_client` embeddings.py:32-48; `_client` is
non-`None` exactly when `_available` is true); `api` models the
`client.embeddings.create` call together with the `except` branch that
returns all-`None` on error. -/
def embedTexts (available : Bool) (api : List String → List (Option (List ℚ)))
    (texts : List String) : List (Option (List ℚ)) :=
  if !available || texts.isEmpty then texts.map (fun _ => none)
  else api (texts.map (fun t => t.take MAX_CHARS))

/-- `EmbeddingGenerator.embed_query` (embeddings.py:125-138). -/
def embedQuery (available : Bool) (apiQ : String → Option (List ℚ))
    (query : String) : Option (List ℚ) :=
  if !available || query.isEmpty then none
  else apiQ query

/-- `HybridSearch.search` (search.py:33-56): lexical pass (whose SQL rows are
the first two arguments), semantic pass with `limit * 2`, fusion, `0.2`
threshold, sort descending, truncate to `limit`. -/
def search (msg_results sess_results : List (String × ℚ))
    (sim : List ℚ → List ℚ → ℚ) (query_embedding : Option (List ℚ))
    (chunk_embeddings : List (String × ℕ × List ℚ))
    (fts_w sem_w : ℚ) (limit : ℕ) : List SearchResult :=
  searchRank (searchFts msg_results sess_results)
    (searchSemantic sim query_embedding chunk_embeddings (limit * 2))
    fts_w sem_w limit

theorem mem_searchRank {fts sem : List (String × ℚ)} {fw sw : ℚ} {limit : ℕ}
    {r : SearchResult} (h : r ∈ searchRank fts sem fw sw limit) :
    r ∈ combineScores fts sem fw sw ∧ (0.2 : ℚ) ≤ r.score := by
  have h' : r ∈ sortResultsDesc ((combineScores fts sem fw sw).filter
      (fun r => decide ((0.2 : ℚ) ≤ r.score))) := List.mem_of_mem_take h
  rw [sortResultsDesc, List.mem_insertionSort] at h'
  have hmem := List.mem_filter.mp h'
  exact ⟨hmem.1, of_decide_eq_true hmem.2⟩

theorem dlookup_mem {β : Type} {l : List (String × β)} {k : String} {v : β}
    (h : dlookup l k = some v) : (k, v) ∈ l := by
  induction l with
  | nil => cases h
  | cons p rest ih =>
    rw [dlookup] at h
    by_cases hp : p.1 = k
    · rw [if_pos hp] at h
      injection h with h
      have hpk : p = (k, v) := by
        rw [← hp, ← h]
      rw [← hpk]
      exact List.mem_cons_self p rest
    · rw [if_neg hp] at h
      exact List.mem_cons_of_mem p (ih h)

theorem searchSemantic_mem_bounds (sim : List ℚ → List ℚ → ℚ)
    (qe : Option (List ℚ)) (chunks : List (String × ℕ × List ℚ)) (limit : ℕ) :
    ∀ p ∈ searchSemantic sim qe chunks limit, FLOOR ≤ p.2 ∧ p.2 ≤ 1 := by
  intro p hp
  cases qe with
  | none => cases hp
  | some q =>
    rw [searchSemantic] at hp
    by_cases h1 : chunks.isEmpty
    · simp [h1] at hp
    · rw [if_neg (by simp [h1])] at hp
      by_cases h2 : (aggregateScores (groupSessionScores sim q chunks)).isEmpty
      · simp [h2] at hp
      · rw [if_neg (by simp [h2])] at hp
        exact normalizeScores_mem_bounds _ p hp

/-- C6: when the embedder is unavailable, `embed_texts` returns a list of
nulls of its input's length and `embed_query` returns null, without error;
`search` then skips the semantic pass and every result is lexical-only with
its normalized score halved (embeddings.py:63-65, 125-127;
search.py:87-90, 136-139). -/
theorem C6_embedder_unavailable_spec (api : List String → List (Option (List ℚ)))
    (apiQ : String → Option (List ℚ)) (texts : List String) (query : String)
    (msg sess : List (String × ℚ)) (sim : List ℚ → List ℚ → ℚ)
    (chunks : List (String × ℕ × List ℚ)) (fw sw : ℚ) (limit : ℕ) :
    embedTexts false api texts = texts.map (fun _ => none)
    ∧ (embedTexts false api texts).length = texts.length
    ∧ embedQuery false apiQ query = none
    ∧ searchSemantic sim (embedQuery false apiQ query) chunks (limit * 2) = []
    ∧ ∀ r ∈ search msg sess sim (embedQuery false apiQ query) chunks fw sw limit,
        r.semantic_score = none
        ∧ ∃ f, dlookup (searchFts msg sess) r.session_id = some f
            ∧ r.fts_score = some f ∧ r.score = f * 0.5 := by
  refine ⟨by rw [embedTexts]; simp, by rw [embedTexts]; simp, rfl, rfl, ?_⟩
  intro r hr
  rw [search] at hr
  have hcomb := (mem_searchRank hr).1
  have hc := combineScores_mem hcomb
  revert hc
  cases hf : dlookup (searchFts msg sess) r.session_id <;>
    cases hs : dlookup (searchSemantic sim (embedQuery false apiQ query) chunks
      (limit * 2)) r.session_id
  · intro hc
    exact absurd hc.2.2 (by simp)
  · simp [embedQuery, searchSemantic, dlookup] at hs
  · rename_i f
    intro hc
    exact ⟨hc.2.1, f, rfl, hc.1, hc.2.2⟩
  · simp [embedQuery, searchSemantic, dlookup] at hs

theorem C6_embedder_unavailable_spec_witness :
    (SearchResult.mk "a" 0.5 (some 1) none).semantic_score = none
    ∧ ∃ f, dlookup (searchFts [("a", -1)] []) "a" = some f
        ∧ (SearchResult.mk "a" 0.5 (some 1) none).fts_score = some f
        ∧ (SearchResult.mk "a" 0.5 (some 1) none).score = f * 0.5 := by
  exact (C6_embedder_unavailable_spec (fun _ => []) (fun _ => none) [] "q"
    [("a", -1)] [] (fun _ _ => 0) [] 0.3 0.7 10).2.2.2.2
    (SearchResult.mk "a" 0.5 (some 1) none) (by
      norm_num [search, searchRank, searchFts, searchFtsScores, normalizeScores,
        combineScores, sortResultsDesc, dlookup, dictSet, searchSemantic,
        embedQuery, List.insertionSort, List.orderedInsert, scoreDesc,
        List.filterMap_cons, List.foldl])

/-- C10: with the default weights (lexical `0.3`, semantic `0.7`) every
returned result has combined score at least `0.25`, and the `≥ 0.2` cutoff
removes nothing (search.py:24-25, 47-50, 120-152, 154-173). -/
theorem C10_default_weights_spec (msg sess : List (String × ℚ))
    (sim : List ℚ → List ℚ → ℚ) (qe : Option (List ℚ))
    (chunks : List (String × ℕ × List ℚ)) (limit : ℕ) :
    (∀ r ∈ search msg sess sim qe chunks 0.3 0.7 limit, (0.25 : ℚ) ≤ r.score)
    ∧ (combineScores (searchFts msg sess)
          (searchSemantic sim qe chunks (limit * 2)) 0.3 0.7).filter
        (fun r => decide ((0.2 : ℚ) ≤ r.score)) =
      combineScores (searchFts msg sess)
        (searchSemantic sim qe chunks (limit * 2)) 0.3 0.7 := by
  have hcomb : ∀ r ∈ combineScores (searchFts msg sess)
      (searchSemantic sim qe chunks (limit * 2)) 0.3 0.7, (0.25 : ℚ) ≤ r.score := by
    intro r hr
    have hc := combineScores_mem hr
    revert hc
    cases hf : dlookup (searchFts msg sess) r.session_id <;>
      cases hs : dlookup (searchSemantic sim qe chunks (limit * 2)) r.session_id
    · intro hc
      exact absurd hc.2.2 (by simp)
    · rename_i s
      intro hc
      have hsb : FLOOR ≤ s ∧ s ≤ 1 :=
        searchSemantic_mem_bounds sim qe chunks (limit * 2) _ (dlookup_mem hs)
      have hscore : r.score = s * 0.5 := hc.2.2
      rw [hscore]
      have hF : FLOOR = 1 / 2 := by norm_num [FLOOR]
      rw [hF] at hsb
      have h05 : (0.5 : ℚ) = 1 / 2 := by norm_num
      have h025 : (0.25 : ℚ) = 1 / 4 := by norm_num
      rw [h05, h025]
      linarith [hsb.1]
    · rename_i f
      intro hc
      have hfb : FLOOR ≤ f ∧ f ≤ 1 := by
        have hm : (r.session_id, f) ∈ searchFts msg sess := dlookup_mem hf
        exact normalizeScores_mem_bounds (searchFtsScores msg sess) _ hm
      have hscore : r.score = f * 0.5 := hc.2.2
      rw [hscore]
      have hF : FLOOR = 1 / 2 := by norm_num [FLOOR]
      rw [hF] at hfb
      have h05 : (0.5 : ℚ) = 1 / 2 := by norm_num
      have h025 : (0.25 : ℚ) = 1 / 4 := by norm_num
      rw [h05, h025]
      linarith [hfb.1]
    · rename_i f s
      intro hc
      have hfb : FLOOR ≤ f ∧ f ≤ 1 := by
        have hm : (r.session_id, f) ∈ searchFts msg sess := dlookup_mem hf
        exact normalizeScores_mem_bounds (searchFtsScores msg sess) _ hm
      have hsb : FLOOR ≤ s ∧ s ≤ 1 :=
        searchSemantic_mem_bounds sim qe chunks (limit * 2) _ (dlookup_mem hs)
      have hscore : r.score = 0.3 * f + 0.7 * s := hc.2.2
      rw [hscore]
      have hF : FLOOR = 1 / 2 := by norm_num [FLOOR]
      rw [hF] at hfb hsb
      have h03 : (0.3 : ℚ) = 3 / 10 := by norm_num
      have h07 : (0.7 : ℚ) = 7 / 10 := by norm_num
      have h025 : (0.25 : ℚ) = 1 / 4 := by norm_num
      rw [h03, h07, h025]
      linarith [hfb.1, hsb.1]
  constructor
  · intro r hr
    rw [search] at hr
    exact hcomb r (mem_searchRank hr).1
  · rw [List.filter_eq_self]
    intro r hr
    exact decide_eq_true (by linarith [hcomb r hr])

theorem C10_default_weights_spec_witness :
    (0.25 : ℚ) ≤ (SearchResult.mk "a" 0.5 (some 1) none).score := by
  exact (C10_default_weights_spec [("a", -1)] [] (fun _ _ => 0) none [] 5).1
    (SearchResult.mk "a" 0.5 (some 1) none) (by
      norm_num [search, searchRank, searchFts, searchFtsScores, normalizeScores,
        combineScores, sortResultsDesc, dlookup, dictSet, searchSemantic,
        List.insertionSort, List.orderedInsert, scoreDesc,
        List.filterMap_cons, List.foldl])

/-! ## `serialize_embedding` / `deserialize_embedding` (embeddings.py:54-61)

`struct.pack(f'{n}f', *v)` writes each value as an IEEE-754 binary32 in the
platform byte order (little-endian on every supported platform);
`struct.unpack(f'{n}f', blob)` reads the bytes back.  A float32 value is
identified with its 32-bit pattern: bit patterns biject with float32 values,
the float64 → float32 conversion performed by `pack` is exact on inputs that
are float32 values, and `unpack` widens exactly.  The model therefore works
on 32-bit words and bytes. -/

/-- Little-endian 4-byte encoding of one 32-bit word (one `'f'` item of
`struct.pack`, embeddings.py:56). -/
def packWord (w : ℕ) : List ℕ :=
  [w % 256, w / 256 % 256, w / 65536 % 256, w / 16777216 % 256]

/-- `EmbeddingGenerator.serialize_embedding` (embeddings.py:54-56). -/
def serializeEmbedding (embedding : List ℕ) : List ℕ :=
  (embedding.map packWord).flatten

/-- Decode consecutive 4-byte groups little-endian (the `'f'` items of
`struct.unpack`). -/
def unpackWords : List ℕ → List ℕ
  | b0 :: b1 :: b2 :: b3 :: rest =>
    (b0 + 256 * b1 + 65536 * b2 + 16777216 * b3) :: unpackWords rest
  | _ => []

/-- `EmbeddingGenerator.deserialize_embedding` (embeddings.py:58-61):
`float_count = len(blob) // 4`, and `struct.unpack(f'{float_count}f', blob)`
raises `struct.error` unless `len(blob) == 4 * float_count`, i.e. unless the
length is a multiple of 4 (the failure is modeled as `none`). -/
def deserializeEmbedding (blob : List ℕ) : Option (List ℕ) :=
  if blob.length % 4 = 0 then some (unpackWords blob) else none

theorem unpackWords_packWord (w : ℕ) (hw : w < 2 ^ 32) (rest : List ℕ) :
    unpackWords (packWord w ++ rest) = w :: unpackWords rest := by
  rw [packWord]
  simp only [List.cons_append, List.nil_append]
  rw [unpackWords]
  congr 1
  omega

theorem unpackWords_serialize (v : List ℕ) (h : ∀ x ∈ v, x < 2 ^ 32) :
    unpackWords (serializeEmbedding v) = v := by
  induction v with
  | nil => rfl
  | cons w vs ih =>
    rw [serializeEmbedding, List.map_cons, List.flatten_cons,
      unpackWords_packWord w (h w (List.mem_cons_self w vs))]
    rw [serializeEmbedding] at ih
    rw [ih (fun x hx => h x (List.mem_cons_of_mem w hx))]

theorem serializeEmbedding_length (v : List ℕ) :
    (serializeEmbedding v).length = 4 * v.length := by
  induction v with
  | nil => rfl
  | cons w vs ih =>
    rw [serializeEmbedding, List.map_cons, List.flatten_cons, List.length_append,
      List.length_cons]
    rw [serializeEmbedding] at ih
    rw [ih, packWord]
    simp only [List.length_cons, List.length_nil]
    ring

/-- C7: for every vector of float32 values (identified with their 32-bit
patterns), `deserialize_embedding (serialize_embedding v)` equals `v`, and
the deserialized vector has the same length as `v`
(embeddings.py:54-61). -/
theorem C7_serialize_roundtrip (v : List ℕ) (h : ∀ x ∈ v, x < 2 ^ 32) :
    deserializeEmbedding (serializeEmbedding v) = some v
    ∧ (∀ w : List ℕ, deserializeEmbedding (serializeEmbedding v) = some w →
        w.length = v.length) := by
  have hlen : (serializeEmbedding v).length % 4 = 0 := by
    rw [serializeEmbedding_length]
    omega
  have hrt : deserializeEmbedding (serializeEmbedding v) = some v := by
    rw [deserializeEmbedding, if_pos hlen, unpackWords_serialize v h]
  refine ⟨hrt, fun w hw => ?_⟩
  rw [hrt] at hw
  injection hw with hw
  rw [← hw]

theorem C7_serialize_roundtrip_witness :
    deserializeEmbedding (serializeEmbedding [0, 3, 4294967295]) =
      some [0, 3, 4294967295] :=
  (C7_serialize_roundtrip [0, 3, 4294967295] (by decide)).1

/-! ## `SessionChunker` (chunker.py)

Messages reach the chunker as Python dicts; `msg.get('content', '')` is a
string unless the provider produced a structured value (the chunker skips
those), modeled as `Option String` with `none` for a non-string value.  The
`agent-do` regex (chunker.py:36-39) is a parameter `toolMatches` giving, for
a content string, the matches in order — each with group 1 (`tool`), optional
group 2 (`command`) and the match span; the claims proved below hold for
every match function.  `json.dumps(metadata)` is modeled by keeping the
metadata dict itself as a structured value. -/

/-- A message dict as the chunker reads it (`msg.get('id')`,
`msg.get('role')`, `msg.get('content', '')`). -/
structure Msg where
  id : Option String
  role : Option String
  content : Option String

/-- The `Session` attributes the chunker uses. -/
structure SessionInfo where
  id : String
  harness : String
  project_name : String
  project_path : String
  title : String

/-- One match of the `agent-do` pattern: group 1, optional group 2, span. -/
structure ToolMatch where
  tool : String
  command : Option String
  start : ℕ
  stop : ℕ

/-- A chunk's metadata dict (chunker.py:95-101, 142-148, 191-196). -/
inductive ChunkMeta where
  | summary (session_id : String) (project_name : String) (harness : String)
      (tools : List String)
  | turn (session_id : String) (message_ids : List (Option String))
      (token_count : ℕ)
  | toolUsage (session_id : String) (message_id : Option String)
      (tool : String) (command : String)

/-- `Chunk` dataclass (chunker.py:15-25). -/
structure Chunk where
  session_id : String
  message_id : Option String
  chunk_index : ℕ
  chunk_type : String
  content : String
  metadata : ChunkMeta
  embedding : Option (List ℕ) := none

/-- `SessionChunker.TARGET_TOKENS` (chunker.py:31). -/
def TARGET_TOKENS : ℕ := 400

/-- `SessionChunker.SUMMARY_PREVIEW_CHARS` (chunker.py:32). -/
def SUMMARY_PREVIEW_CHARS : ℕ := 200

/-- `SessionChunker.estimate_tokens` (chunker.py:41-43): `len(text) // 4`. -/
def estimateTokens (text : String) : ℕ := text.length / 4

/-- Python string slice `s[a:b]` (indices already clamped by the caller). -/
def pySlice (s : String) (a b : ℕ) : String :=
  ((s.toList.drop a).take (b - a)).asString

/-- `SessionChunker.extract_tool_mentions` (chunker.py:45-54): sorted set of
group-1 names over all string contents. -/
def extractToolMentions (toolMatches : String → List ToolMatch)
    (messages : List Msg) : List String :=
  let tools := messages.foldl (fun acc msg =>
    match msg.content with
    | some c => acc ++ (toolMatches c).map ToolMatch.tool
    | none => acc) []
  tools.dedup.insertionSort (· ≤ ·)

/-- The first-user-prompt scan of `create_summary_chunk` (chunker.py:63-72):
first user message with nonblank string content, previewed to 200 characters
with an ellipsis beyond that. -/
def firstUserPrompt : List Msg → String
  | [] => ""
  | msg :: rest =>
    if msg.role = some "user" then
      match msg.content with
      | some c =>
        if c.trim ≠ "" then
          c.take SUMMARY_PREVIEW_CHARS ++
            (if c.length > SUMMARY_PREVIEW_CHARS then "..." else "")
        else firstUserPrompt rest
      | none => firstUserPrompt rest
    else firstUserPrompt rest

/-- `SessionChunker.create_summary_chunk` (chunker.py:56-110). -/
def createSummaryChunk (toolMatches : String → List ToolMatch)
    (session : SessionInfo) (messages : List Msg) (chunk_index : ℕ) : Chunk :=
  let first_prompt := firstUserPrompt messages
  let tools := extractToolMentions toolMatches messages
  let project_name := session.project_name
  let project_path := session.project_path
  let title := session.title
  let parts := [s!"Project: {project_name}", s!"Path: {project_path}"]
    ++ (if title ≠ "" then [s!"Title: {title}"] else [])
    ++ (if first_prompt ≠ "" then [s!"First prompt: {first_prompt}"] else [])
    ++ (if tools ≠ [] then ["Tools used: " ++ String.intercalate ", " tools] else [])
  { session_id := session.id
    message_id := none
    chunk_index := chunk_index
    chunk_type := "summary"
    content := String.intercalate "\n" parts
    metadata := ChunkMeta.summary session.id session.project_name session.harness tools }

/-- One flushed turn chunk (chunker.py:189-206, 219-236). -/
def turnChunkOf (session : SessionInfo) (msgs : List String)
    (ids : List (Option String)) (tokens : ℕ) (idx : ℕ) : Chunk :=
  { session_id := session.id
    message_id := ids.headD none
    chunk_index := idx
    chunk_type := "turn"
    content := String.intercalate "\n\n" msgs
    metadata := ChunkMeta.turn session.id ids tokens }

/-- The message loop of `create_turn_chunks` (chunker.py:176-236), carrying
`current_chunk_messages`, `current_chunk_msg_ids`, `current_tokens` and the
running `chunk_index`. -/
def createTurnChunksAux (session : SessionInfo) :
    List Msg → List String → List (Option String) → ℕ → ℕ → List Chunk
  | [], curMsgs, curIds, curTok, idx =>
    if curMsgs ≠ [] then [turnChunkOf session curMsgs curIds curTok idx] else []
  | msg :: rest, curMsgs, curIds, curTok, idx =>
    match msg.content with
    | none => createTurnChunksAux session rest curMsgs curIds curTok idx
    | some c =>
      let role := msg.role.getD "unknown"
      let formatted := s!"[{role}]: {c}"
      let msg_tokens := estimateTokens formatted
      if curTok + msg_tokens > TARGET_TOKENS ∧ curMsgs ≠ [] then
        turnChunkOf session curMsgs curIds curTok idx ::
          createTurnChunksAux session rest [formatted] [msg.id] msg_tokens (idx + 1)
      else
        createTurnChunksAux session rest (curMsgs ++ [formatted])
          (curIds ++ [msg.id]) (curTok + msg_tokens) idx

/-- `SessionChunker.create_turn_chunks` (chunker.py:162-238). -/
def createTurnChunks (session : SessionInfo) (messages : List Msg)
    (start_index : ℕ) : List Chunk :=
  createTurnChunksAux session messages [] [] 0 start_index

/-- One tool-usage chunk (chunker.py:127-157). -/
def toolChunkOf (session : SessionInfo) (msg : Msg) (c : String)
    (m : ToolMatch) (idx : ℕ) : Chunk :=
  let tool := m.tool
  let command := m.command.getD ""
  let context := (pySlice c (m.start - 200) (min c.length (m.stop + 200))).trim
  { session_id := session.id
    message_id := msg.id
    chunk_index := idx
    chunk_type := "tool_usage"
    content := s!"Tool: agent-do {tool}\n"
      ++ (if command ≠ "" then s!"Command: {command}\n" else "")
      ++ s!"Context: {context}"
    metadata := ChunkMeta.toolUsage session.id msg.id s!"agent-do-{tool}" command }

/-- The inner match loop of `create_tool_usage_chunks` (chunker.py:127-158). -/
def toolChunksForMsg (session : SessionInfo) (msg : Msg) (c : String) :
    List ToolMatch → ℕ → List Chunk
  | [], _ => []
  | m :: ms, idx => toolChunkOf session msg c m idx ::
      toolChunksForMsg session msg c ms (idx + 1)

/-- The message loop of `create_tool_usage_chunks` (chunker.py:112-160). -/
def createToolUsageChunksAux (toolMatches : String → List ToolMatch)
    (session : SessionInfo) : List Msg → ℕ → List Chunk
  | [], _ => []
  | msg :: rest, idx =>
    match msg.content with
    | none => createToolUsageChunksAux toolMatches session rest idx
    | some c =>
      toolChunksForMsg session msg c (toolMatches c) idx ++
        createToolUsageChunksAux toolMatches session rest (idx + (toolMatches c).length)

/-- `SessionChunker.create_tool_usage_chunks` (chunker.py:112-160). -/
def createToolUsageChunks (toolMatches : String → List ToolMatch)
    (session : SessionInfo) (messages : List Msg) (start_index : ℕ) : List Chunk :=
  createToolUsageChunksAux toolMatches session messages start_index

/-- `SessionChunker.chunk_session` (chunker.py:240-268): summary chunk at
index 0, then turn chunks from index 1, then tool-usage chunks continuing
the numbering. -/
def chunkSession (toolMatches : String → List ToolMatch) (session : SessionInfo)
    (messages : List Msg) : List Chunk :=
  let summary := createSummaryChunk toolMatches session messages 0
  let turn_chunks := createTurnChunks session messages 1
  let tool_chunks := createToolUsageChunks toolMatches session messages
    (1 + turn_chunks.length)
  summary :: (turn_chunks ++ tool_chunks)

theorem range_one_append (s m n : ℕ) :
    List.range' s m ++ List.range' (s + m) n = List.range' s (m + n) := by
  have h := List.range'_append s m n 1
  rw [one_mul] at h
  rw [Nat.add_comm n m] at h
  exact h

theorem createTurnChunksAux_type (session : SessionInfo) (msgs : List Msg) :
    ∀ curMsgs curIds curTok idx,
      ∀ ch ∈ createTurnChunksAux session msgs curMsgs curIds curTok idx,
        ch.chunk_type = "turn" := by
  induction msgs with
  | nil =>
    intro curMsgs curIds curTok idx ch hch
    rw [createTurnChunksAux] at hch
    by_cases h : curMsgs ≠ []
    · rw [if_pos h] at hch
      rw [List.mem_singleton.mp hch]
      rfl
    · rw [if_neg h] at hch
      cases hch
  | cons msg rest ih =>
    intro curMsgs curIds curTok idx ch hch
    cases hc : msg.content with
    | none =>
      rw [createTurnChunksAux, hc] at hch
      exact ih _ _ _ _ ch hch
    | some c =>
      rw [createTurnChunksAux, hc] at hch
      simp only [] at hch
      split at hch
      · rcases List.mem_cons.mp hch with h | h
        · rw [h]
          rfl
        · exact ih _ _ _ _ ch h
      · exact ih _ _ _ _ ch hch

theorem createTurnChunksAux_idx (session : SessionInfo) (msgs : List Msg) :
    ∀ curMsgs curIds curTok idx,
      (createTurnChunksAux session msgs curMsgs curIds curTok idx).map
          Chunk.chunk_index =
        List.range' idx
          (createTurnChunksAux session msgs curMsgs curIds curTok idx).length := by
  induction msgs with
  | nil =>
    intro curMsgs curIds curTok idx
    rw [createTurnChunksAux]
    by_cases h : curMsgs ≠ []
    · rw [if_pos h]
      rfl
    · rw [if_neg h]
      rfl
  | cons msg rest ih =>
    intro curMsgs curIds curTok idx
    cases hc : msg.content with
    | none =>
      rw [createTurnChunksAux, hc]
      exact ih _ _ _ _
    | some c =>
      rw [createTurnChunksAux, hc]
      simp only []
      split
      · rw [List.map_cons, ih, List.length_cons]
        rfl
      · exact ih _ _ _ _

theorem toolChunksForMsg_type (session : SessionInfo) (msg : Msg) (c : String) :
    ∀ ms idx, ∀ ch ∈ toolChunksForMsg session msg c ms idx,
      ch.chunk_type = "tool_usage" := by
  intro ms
  induction ms with
  | nil =>
    intro idx ch hch
    cases hch
  | cons m rest ih =>
    intro idx ch hch
    rcases List.mem_cons.mp hch with h | h
    · rw [h]
      rfl
    · exact ih _ ch h

theorem toolChunksForMsg_len (session : SessionInfo) (msg : Msg) (c : String) :
    ∀ ms idx, (toolChunksForMsg session msg c ms idx).length = ms.length := by
  intro ms
  induction ms with
  | nil => intro idx; rfl
  | cons m rest ih =>
    intro idx
    rw [toolChunksForMsg, List.length_cons, List.length_cons, ih]

theorem toolChunksForMsg_idx (session : SessionInfo) (msg : Msg) (c : String) :
    ∀ ms idx, (toolChunksForMsg session msg c ms idx).map Chunk.chunk_index =
      List.range' idx (toolChunksForMsg session msg c ms idx).length := by
  intro ms
  induction ms with
  | nil => intro idx; rfl
  | cons m rest ih =>
    intro idx
    rw [toolChunksForMsg, List.map_cons, ih, List.length_cons]
    rfl

theorem createToolUsageChunksAux_type (toolMatches : String → List ToolMatch)
    (session : SessionInfo) (msgs : List Msg) :
    ∀ idx, ∀ ch ∈ createToolUsageChunksAux toolMatches session msgs idx,
      ch.chunk_type = "tool_usage" := by
  induction msgs with
  | nil =>
    intro idx ch hch
    cases hch
  | cons msg rest ih =>
    intro idx ch hch
    cases hc : msg.content with
    | none =>
      rw [createToolUsageChunksAux, hc] at hch
      exact ih _ ch hch
    | some c =>
      rw [createToolUsageChunksAux, hc] at hch
      rcases List.mem_append.mp hch with h | h
      · exact toolChunksForMsg_type session msg c _ _ ch h
      · exact ih _ ch h

theorem createToolUsageChunksAux_idx (toolMatches : String → List ToolMatch)
    (session : SessionInfo) (msgs : List Msg) :
    ∀ idx, (createToolUsageChunksAux toolMatches session msgs idx).map
        Chunk.chunk_index =
      List.range' idx (createToolUsageChunksAux toolMatches session msgs idx).length := by
  induction msgs with
  | nil => intro idx; rfl
  | cons msg rest ih =>
    intro idx
    cases hc : msg.content with
    | none =>
      rw [createToolUsageChunksAux, hc]
      exact ih _
    | some c =>
      rw [createToolUsageChunksAux, hc]
      rw [List.map_append, toolChunksForMsg_idx, ih, List.length_append]
      rw [toolChunksForMsg_len]
      exact range_one_append idx ((toolMatches c).length)
        (createToolUsageChunksAux toolMatches session rest
          (idx + (toolMatches c).length)).length

theorem eq_replicate_type {l : List Chunk} {t : String}
    (h : ∀ ch ∈ l, ch.chunk_type = t) :
    l.map Chunk.chunk_type = List.replicate l.length t := by
  induction l with
  | nil => rfl
  | cons ch rest ih =>
    rw [List.map_cons, List.length_cons, List.replicate_succ,
      h ch (List.mem_cons_self ch rest),
      ih (fun x hx => h x (List.mem_cons_of_mem ch hx))]

/-- C8: `chunk_session` returns the summary chunk first (`chunk_index = 0`),
no other summary chunk, contiguous `chunk_index` values `0..n−1` in list
order, and every `tool_usage` chunk after every `turn` chunk
(chunker.py:240-268). -/
theorem C8_chunkSession_spec (toolMatches : String → List ToolMatch)
    (session : SessionInfo) (messages : List Msg) :
    (chunkSession toolMatches session messages).map Chunk.chunk_index =
      List.range (chunkSession toolMatches session messages).length
    ∧ ∃ t u : ℕ,
        (chunkSession toolMatches session messages).map Chunk.chunk_type =
          "summary" :: (List.replicate t "turn" ++ List.replicate u "tool_usage") := by
  constructor
  · rw [chunkSession]
    rw [List.map_cons, List.map_append]
    rw [createTurnChunks, createTurnChunksAux_idx]
    rw [createToolUsageChunks, createToolUsageChunksAux_idx]
    rw [range_one_append 1 _ _]
    have hsum : (createSummaryChunk toolMatches session messages 0).chunk_index = 0 :=
      rfl
    rw [hsum]
    rw [List.length_cons, List.length_append]
    rw [List.range_eq_range']
    rfl
  · refine ⟨(createTurnChunks session messages 1).length,
      (createToolUsageChunks toolMatches session messages
        (1 + (createTurnChunks session messages 1).length)).length, ?_⟩
    rw [chunkSession]
    rw [List.map_cons, List.map_append]
    have hsum : (createSummaryChunk toolMatches session messages 0).chunk_type =
        "summary" := rfl
    rw [hsum]
    rw [eq_replicate_type (l := createTurnChunks session messages 1)
      (fun ch hch => createTurnChunksAux_type session messages [] [] 0 1 ch hch)]
    rw [eq_replicate_type (l := createToolUsageChunks toolMatches session messages
        (1 + (createTurnChunks session messages 1).length))
      (fun ch hch => createToolUsageChunksAux_type toolMatches session messages
        _ ch hch)]

/-! ## `SessionIndexer._index_session`: `first_prompt_preview`
(indexer.py:244-248)

Python strings are sequences of code points; `List Char` models them exactly
for slicing and `len`. -/

/-- The `first_prompt_preview` computation of `_index_session`
(indexer.py:244-248): `None` when `session.first_prompt` is falsy (empty);
otherwise `first_prompt[:200]`, with `"..."` appended when
`len(first_prompt) > 200`. -/
def firstPromptPreview : List Char → Option (List Char)
  | [] => none
  | c :: cs =>
    let preview := (c :: cs).take 200
    some (if (c :: cs).length > 200 then preview ++ "...".toList else preview)

set_option maxRecDepth 4000 in
/-- C9 counterexample: a 201-character first prompt is non-empty, yet the
stored preview has 203 characters — more than 200.  (The claim says the
preview is at most 200 characters long.) -/
theorem C9_firstPromptPreview_counterexample :
    List.replicate 201 'a' ≠ ([] : List Char)
    ∧ (firstPromptPreview (List.replicate 201 'a')).map List.length = some 203
    ∧ ¬ 203 ≤ 200 := by
  refine ⟨by decide, ?_, by decide⟩
  decide

/-- C9 amended: for a non-empty first prompt of at most 200 characters the
preview is the prompt itself (hence at most 200 characters); for a longer
prompt it is the first 200 characters followed by `"..."`, 203 characters in
total; in every case the preview is at most 203 — not 200 — characters long
(indexer.py:244-248). -/
theorem C9_firstPromptPreview_amended (c : Char) (cs : List Char) :
    firstPromptPreview [] = none
    ∧ ((c :: cs).length ≤ 200 → firstPromptPreview (c :: cs) = some (c :: cs))
    ∧ (200 < (c :: cs).length →
        firstPromptPreview (c :: cs) = some ((c :: cs).take 200 ++ "...".toList)
        ∧ ∀ p, firstPromptPreview (c :: cs) = some p → p.length = 203)
    ∧ (∀ p, firstPromptPreview (c :: cs) = some p → p.length ≤ 203) := by
  have h3 : ("...".toList).length = 3 := by decide
  refine ⟨rfl, ?_, ?_, ?_⟩
  · intro hle
    rw [firstPromptPreview]
    simp only [if_neg (by omega : ¬ (c :: cs).length > 200)]
    rw [List.take_of_length_le hle]
  · intro hgt
    have hform : firstPromptPreview (c :: cs) =
        some ((c :: cs).take 200 ++ "...".toList) := by
      rw [firstPromptPreview]
      simp only [if_pos (by omega : (c :: cs).length > 200)]
    refine ⟨hform, fun p hp => ?_⟩
    rw [hform] at hp
    injection hp with hp
    rw [← hp, List.length_append, List.length_take, h3]
    omega
  · intro p hp
    rcases le_or_lt (c :: cs).length 200 with hle | hgt
    · rw [firstPromptPreview] at hp
      simp only [if_neg (by omega : ¬ (c :: cs).length > 200)] at hp
      injection hp with hp
      rw [← hp, List.length_take]
      omega
    · rw [firstPromptPreview] at hp
      simp only [if_pos (by omega : (c :: cs).length > 200)] at hp
      injection hp with hp
      rw [← hp, List.length_append, List.length_take, h3]
      omega

theorem C9_firstPromptPreview_amended_witness :
    firstPromptPreview ['a'] = some ['a'] :=
  (C9_firstPromptPreview_amended 'a' []).2.1 (by decide)

/-! ## `SessionDatabase` store and the `_index_session` write sequence
(database.py, indexer.py:223-342)

`_get_connection` (database.py:82-93) opens sqlite3 with
`isolation_level=None`, i.e. autocommit mode: every executed statement
commits immediately, and no `BEGIN`/`COMMIT` appears anywhere in the code.
So each statement issued by `_index_session` is durable as soon as it runs,
and an exception raised between statements (caught and only logged at
indexer.py:340-342) leaves all previously executed statements committed.
The model runs the statement list and records every committed
(reader-visible) intermediate state.  The FTS mirror tables are maintained
by triggers on `messages`/`sessions` and always reflect those tables, so
they add no extra states. -/

/-- `sessions` table row (database.py:13-30, columns database.py:138-156). -/
structure SessionRow where
  id : String
  harness : String
  project_path : Option String
  project_name : Option String
  timestamp : Int
  timestamp_end : Option Int
  is_child : Bool
  parent_id : Option String
  child_type : Option String
  message_count : ℕ
  turn_count : ℕ
  first_prompt_preview : Option String
  file_path : Option String
  file_mtime : Option Int
  indexed_at : Option Int
  auto_tags : Option String
deriving DecidableEq

/-- `messages` table row (database.py:33-42, columns database.py:164-174). -/
structure MessageRow where
  id : String
  session_id : String
  role : String
  content : Option String
  timestamp : Option Int
  sequence : ℕ
  has_code : Bool
  tool_mentions : Option String
deriving DecidableEq

/-- `chunks` table row (database.py:45-56, columns database.py:179-191). -/
structure ChunkRow where
  id : Option ℕ
  session_id : String
  message_id : Option String
  chunk_index : ℕ
  chunk_type : String
  content : String
  metadata : Option String
  embedding : Option (List ℕ)
  embedding_model : Option String
  created_at : Option Int
deriving DecidableEq

/-- The tables `_index_session` mutates, plus the AUTOINCREMENT counter
backing `chunks.id`. -/
structure Store where
  sessions : List SessionRow
  messages : List MessageRow
  chunks : List ChunkRow
  nextChunkId : ℕ
deriving DecidableEq

/-- `SessionDatabase.upsert_session` (database.py:294-359): `INSERT … ON
CONFLICT(id) DO UPDATE` setting every non-key column, i.e. replace the row
with the same id, else append. -/
def upsertSession (st : Store) (row : SessionRow) : Store :=
  if st.sessions.any (fun r => r.id == row.id) then
    { st with sessions := st.sessions.map (fun r => if r.id = row.id then row else r) }
  else { st with sessions := st.sessions ++ [row] }

/-- `SessionDatabase.delete_messages_for_session` (database.py:399-402). -/
def deleteMessagesForSession (st : Store) (sid : String) : Store :=
  { st with messages := st.messages.filter (fun m => m.session_id != sid) }

/-- `SessionDatabase.delete_chunks_for_session` (database.py:404-407). -/
def deleteChunksForSession (st : Store) (sid : String) : Store :=
  { st with chunks := st.chunks.filter (fun c => c.session_id != sid) }

/-- One row of `SessionDatabase.upsert_messages` (database.py:361-392): on
conflict the listed columns are updated — `session_id` is not among them. -/
def upsertMessage (st : Store) (m : MessageRow) : Store :=
  if st.messages.any (fun r => r.id == m.id) then
    { st with messages := st.messages.map (fun r =>
        if r.id = m.id then { m with session_id := r.session_id } else r) }
  else { st with messages := st.messages ++ [m] }

/-- `SessionDatabase.upsert_messages` (`executemany`, database.py:361-392). -/
def upsertMessages (st : Store) (ms : List MessageRow) : Store :=
  ms.foldl upsertMessage st

/-- The INSERT branch of `upsert_chunks` (database.py:437-454): a fresh
AUTOINCREMENT id; `created_at` defaults to the current time `now`
(database.py:189). -/
def insertChunkRow (now : Int) (st : Store) (c : ChunkRow) : Store :=
  { st with
    chunks := st.chunks ++ [{ c with id := some st.nextChunkId, created_at := some now }]
    nextChunkId := st.nextChunkId + 1 }

/-- One row of `SessionDatabase.upsert_chunks` (database.py:409-454):
`if chunk.id:` (truthy — non-`None` and nonzero) UPDATE the listed columns
(`id` and `created_at` keep their stored values), else INSERT. -/
def upsertChunk (now : Int) (st : Store) (c : ChunkRow) : Store :=
  match c.id with
  | some i =>
    if i ≠ 0 then
      { st with chunks := st.chunks.map (fun r =>
          if r.id = some i then { c with created_at := r.created_at } else r) }
    else insertChunkRow now st c
  | none => insertChunkRow now st c

/-- `SessionDatabase.upsert_chunks` (database.py:409-454). -/
def upsertChunks (now : Int) (st : Store) (cs : List ChunkRow) : Store :=
  cs.foldl (upsertChunk now) st

/-- The write statements of `_index_session` in execution order
(indexer.py:260-333, `metadata_only=False`): upsert the session row, delete
the session's old messages, delete its old chunks, insert the new message
rows, insert the new chunk rows.  `sessionRow`, `messageRows` and
`chunkRows` are the pure-Python values computed at indexer.py:239-332 with
no store effect. -/
def indexSessionStatements (now : Int) (sessionRow : SessionRow)
    (messageRows : List MessageRow) (chunkRows : List ChunkRow) :
    List (Store → Store) :=
  [fun st => upsertSession st sessionRow,
   fun st => deleteMessagesForSession st sessionRow.id,
   fun st => deleteChunksForSession st sessionRow.id,
   fun st => upsertMessages st messageRows,
   fun st => upsertChunks now st chunkRows]

/-- The committed states a reader can observe during one `_index_session`:
under autocommit (`isolation_level=None`, database.py:88) the state after
each executed statement is durable, and an exception stopping the function
after `k` statements leaves the `k`-th state in place. -/
def observableStates (now : Int) (st0 : Store) (sessionRow : SessionRow)
    (messageRows : List MessageRow) (chunkRows : List ChunkRow) : List Store :=
  (indexSessionStatements now sessionRow messageRows chunkRows).scanl
    (fun st f => f st) st0

/-- The pre-existing indexed state of session `"s"`: one session row, one
message row, one chunk row. -/
def oldSessionRow : SessionRow :=
  { id := "s", harness := "claude-code", project_path := none
    project_name := none, timestamp := 0, timestamp_end := none
    is_child := false, parent_id := none, child_type := none
    message_count := 1, turn_count := 1, first_prompt_preview := none
    file_path := none, file_mtime := none, indexed_at := some 1
    auto_tags := none }

/-- The re-indexed session row (same id, fresh `indexed_at`). -/
def newSessionRow : SessionRow :=
  { oldSessionRow with indexed_at := some 2 }

def oldMessageRow : MessageRow :=
  { id := "m0", session_id := "s", role := "user", content := some "old"
    timestamp := none, sequence := 0, has_code := false, tool_mentions := none }

def newMessageRow : MessageRow :=
  { oldMessageRow with id := "m1", content := some "new" }

def oldChunkRow : ChunkRow :=
  { id := some 1, session_id := "s", message_id := none, chunk_index := 0
    chunk_type := "summary", content := "old", metadata := none
    embedding := none, embedding_model := none, created_at := some 1 }

def newChunkRow : ChunkRow :=
  { id := none, session_id := "s", message_id := none, chunk_index := 0
    chunk_type := "summary", content := "new", metadata := none
    embedding := none, embedding_model := none, created_at := none }

def initialStore : Store :=
  { sessions := [oldSessionRow], messages := [oldMessageRow]
    chunks := [oldChunkRow], nextChunkId := 2 }

/-- C1: session re-index is NOT atomic.  Re-indexing session `"s"` over
`initialStore` produces, under sqlite autocommit
(`isolation_level=None`, database.py:82-93; no transaction wraps
indexer.py:260-333), a committed intermediate state after the two DELETE
statements — the state a reader observes if e.g. `upsert_messages` or the
embedder raises — in which the session row is already updated and the old
message and chunk rows are gone with no replacements.  That state differs
from both the pre-index state and the post-index state, contradicting the
claim that either old rows are fully replaced or nothing changes.  (The
final state, for contrast, is the full replacement.) -/
theorem C1_indexSession_partial_state_observable :
    ((observableStates 5 initialStore newSessionRow [newMessageRow]
        [newChunkRow]).getD 3 initialStore ≠ initialStore)
    ∧ ((observableStates 5 initialStore newSessionRow [newMessageRow]
        [newChunkRow]).getD 3 initialStore ≠
       (observableStates 5 initialStore newSessionRow [newMessageRow]
        [newChunkRow]).getD 5 initialStore)
    ∧ ((observableStates 5 initialStore newSessionRow [newMessageRow]
        [newChunkRow]).getD 3 initialStore =
        { sessions := [newSessionRow], messages := [], chunks := []
          nextChunkId := 2 })
    ∧ ((observableStates 5 initialStore newSessionRow [newMessageRow]
        [newChunkRow]).getD 5 initialStore =
        { sessions := [newSessionRow], messages := [newMessageRow]
          chunks := [{ newChunkRow with id := some 2, created_at := some 5 }]
          nextChunkId := 3 }) := by
  refine ⟨?_, ?_, ?_, ?_⟩ <;> decide

end AgentSessions
